import Mathlib

/-!
# Verification of the PBS option parser (`vsc.qlint.pbs_option_parser`)

Shallow embedding of `PbsOptionParser` from `src/vsc/qlint/pbs_option_parser.py`.
Python strings are modelled as `List Char`; Python's string operations used by
the source (`split`, `strip`, `startswith`, `isdigit`, `int`) are defined below
with Python semantics.  Fallible operations (tuple unpacking of `split` results,
which raises `ValueError` in Python when the number of parts differs from the
number of targets) are modelled with `Except`.

The unit converters `walltime2seconds` and `size2bytes` live in `vsc.utils`,
which is not part of the sources; they are modelled from the specification
(§4.1, §6 of spec.md), as is the job record that receives the parsed values.
-/

set_option autoImplicit false

namespace PbsParser

/-- Python strings are modelled as lists of characters. -/
abbrev Str := List Char

/-- Shorthand turning a Lean string literal into the `List Char` model. -/
def str (s : String) : Str := s.toList

/-- Python `s.split(c)` for a one-character separator `c` and no `maxsplit`:
helper returning the first field and the remaining fields. -/
def pySplitAux (c : Char) : Str → Str × List Str
  | [] => ([], [])
  | x :: xs =>
    let r := pySplitAux c xs
    if x = c then ([], r.1 :: r.2) else (x :: r.1, r.2)

/-- Python `s.split(c)`: always returns at least one (possibly empty) field;
empty fields between, before or after separators are kept. -/
def pySplit (c : Char) (s : Str) : List Str :=
  (pySplitAux c s).1 :: (pySplitAux c s).2

/-- Python `s.split(c, 1)`: the part before the first separator, and — when a
separator occurs — `some` remainder (which may itself contain separators). -/
def pySplit1 (c : Char) : Str → Str × Option Str
  | [] => ([], none)
  | x :: xs =>
    if x = c then ([], some xs)
    else
      let r := pySplit1 c xs
      (x :: r.1, r.2)

/-- Python `s.strip()`: remove leading and trailing whitespace. -/
def pyStrip (s : Str) : Str :=
  ((s.dropWhile Char.isWhitespace).reverse.dropWhile Char.isWhitespace).reverse

/-- Python `s.startswith(p)`. -/
def pyStartswith : Str → Str → Bool
  | [], _ => true
  | _ :: _, [] => false
  | p :: ps, s :: ss => p == s && pyStartswith ps ss

/-- Python `s.isdigit()`: non-empty and all decimal digits. -/
def pyIsdigit (s : Str) : Bool :=
  !s.isEmpty && s.all Char.isDigit

/-- Python `int(s)` on an all-digit string. -/
def pyInt (s : Str) : Nat :=
  s.foldl (fun n c => 10 * n + (c.toNat - 48)) 0

/-- A diagnostic event as registered by `PbsOptionParser.reg_event`:
the Python dict `{'event': ..., 'extra': ...}`. -/
structure Event where
  event : Str
  extra : List (Str × Str)
deriving DecidableEq, Repr

/-- One node specification of a `nodes=` clause: the Python dict built in
`check_l` (lines 146–169).  `nodes` and `features` are always set; `host`,
`ppn` and `gpus` are present only when the corresponding key was stored. -/
structure NodeSpec where
  nodes : Nat
  host : Option Str
  ppn : Option Nat
  gpus : Option Nat
  features : List Str
deriving DecidableEq, Repr

/-- A value stored in the `resource_spec` dict: an integer (seconds or bytes)
or the list of node specifications. -/
inductive RVal where
  | num : Nat → RVal
  | nspecs : List NodeSpec → RVal
deriving DecidableEq, Repr

/-- The `resource_spec` dict, as an association list with Python-dict update
semantics (`rsSet`). -/
abbrev ResourceSpec := List (Str × RVal)

/-- Python dict assignment `m[k] = v`: overwrite in place when the key exists,
append otherwise. -/
def rsSet (m : ResourceSpec) (k : Str) (v : RVal) : ResourceSpec :=
  if m.any (fun p => p.1 == k) then
    m.map (fun p => if p.1 == k then (k, v) else p)
  else
    m ++ [(k, v)]

/-- Python dict lookup `m.get(k)`: the value of the first (and, by the nodup
invariant, only) entry with the given key. -/
def rsGet : ResourceSpec → Str → Option RVal
  | [], _ => none
  | p :: ps, k => if p.1 == k then some p.2 else rsGet ps k

instance : Inhabited RVal := ⟨.num 0⟩

/-- The uncaught Python exceptions the parser can raise: `ValueError` from
unpacking a `split` result of the wrong length. -/
inductive PyErr where
  | valueError
deriving DecidableEq, Repr

/-- Modelled from the spec: `vsc.utils.walltime2seconds` is not under `src/`.
Per §4.1/§6 it accepts `digits`, `digits:digits` and `digits:digits:digits`
(`SS`, `MM:SS`, `HH:MM:SS`), returning `H*3600+M*60+S`, and raises
`InvalidWalltimeError` (here: `none`) for every other string. -/
def walltime2seconds (s : Str) : Option Nat :=
  match pySplit ':' s with
  | [a] => if pyIsdigit a then some (pyInt a) else none
  | [a, b] =>
    if pyIsdigit a && pyIsdigit b then some (pyInt a * 60 + pyInt b) else none
  | [a, b, c] =>
    if pyIsdigit a && pyIsdigit b && pyIsdigit c then
      some (pyInt a * 3600 + pyInt b * 60 + pyInt c)
    else none
  | _ => none

/-- Modelled from the spec: `vsc.utils.size2bytes` is not under `src/`.
Per §4.1 it multiplies by a base-1024 power per unit (k=2^10, m=2^20, g=2^30,
t=2^40); the caller's pattern match guarantees the unit is one of k/m/g/t. -/
def size2bytes (amount : Nat) (order : Char) : Nat :=
  amount * (if order = 'k' then 1024
    else if order = 'm' then 1024 ^ 2
    else if order = 'g' then 1024 ^ 3
    else if order = 't' then 1024 ^ 4
    else 1)

/-- `re.match(r'(\d+)([kmgt])[bw]', v)` from line 132: an unanchored match at
the start of the string; trailing characters after the `b`/`w` are ignored.
Returns `int(group(1))` and `group(2)` on success.  (`\d+` is effectively
greedy-exact here since no unit character is a digit.) -/
def memMatch (v : Str) : Option (Nat × Char) :=
  let ds := v.takeWhile Char.isDigit
  match v.dropWhile Char.isDigit with
  | o :: u :: _ =>
    if !ds.isEmpty && (o = 'k' ∨ o = 'm' ∨ o = 'g' ∨ o = 't') &&
        (u = 'b' ∨ u = 'w') then
      some (pyInt ds, o)
    else none
  | _ => none

/-- The pattern the spec states for `mem=`/`pmem=` values, written from the
spec's words (§4.2: `^(\d+)([kmgt])[bw]$`): anchored at both ends, so no
trailing characters are allowed.  Kept separate from `memMatch` (the code's
pattern) to compare the two. -/
def memMatchSpec (v : Str) : Option (Nat × Char) :=
  let ds := v.takeWhile Char.isDigit
  match v.dropWhile Char.isDigit with
  | [o, u] =>
    if !ds.isEmpty && (o = 'k' ∨ o = 'm' ∨ o = 'g' ∨ o = 't') &&
        (u = 'b' ∨ u = 'w') then
      some (pyInt ds, o)
    else none
  | _ => none

/-- Lines 158–168: one `:`-separated token after the leading one.  `ppn=`/
`gpus=` tokens set the integer field when the value is all digits and register
a `<key>_no_number` event otherwise; `key, value = spec_str.split('=')` raises
`ValueError` when the split does not have exactly two parts.  Any other token
is appended to `features`. -/
def processTok (ns : NodeSpec) (evs : List Event) (tok : Str) :
    Except PyErr (NodeSpec × List Event) :=
  if pyStartswith (str "ppn=") tok || pyStartswith (str "gpus=") tok then
    match pySplit '=' tok with
    | [key, value] =>
      if pyIsdigit value then
        if key = str "ppn" then .ok ({ ns with ppn := some (pyInt value) }, evs)
        else if key = str "gpus" then
          .ok ({ ns with gpus := some (pyInt value) }, evs)
        else .ok (ns, evs)
      else
        .ok (ns, evs ++ [⟨key ++ str "_no_number", [(str "number", value)]⟩])
    | _ => .error .valueError
  else
    .ok ({ ns with features := ns.features ++ [tok] }, evs)

/-- The `for spec_str in spec_strs[1:]` loop of lines 158–168. -/
def foldTokens (ns : NodeSpec) (evs : List Event) :
    List Str → Except PyErr (NodeSpec × List Event)
  | [] => .ok (ns, evs)
  | t :: ts =>
    match processTok ns evs t with
    | .ok (ns', evs') => foldTokens ns' evs' ts
    | .error e => .error e

/-- Lines 146–169: parse one `+`-delimited node clause.  `split(':')` is never
empty, so `headD []`/`tail` model `spec_strs[0]`/`spec_strs[1:]` exactly.  A
leading all-digit token is the node count; otherwise the count is 1 and the
token is stored as `host`. -/
def parseNodeSpecStr (evs : List Event) (s : Str) :
    Except PyErr (NodeSpec × List Event) :=
  let spec_strs := pySplit ':' s
  let t := spec_strs.headD []
  let ns0 : NodeSpec :=
    if pyIsdigit t then ⟨pyInt t, none, none, none, []⟩
    else ⟨1, some t, none, none, []⟩
  foldTokens ns0 evs spec_strs.tail

/-- The `for node_spec_str in node_spec_strs` loop of lines 145–169,
accumulating the `node_specs` list in order. -/
def foldNodeSpecs (acc : List NodeSpec) (evs : List Event) :
    List Str → Except PyErr (List NodeSpec × List Event)
  | [] => .ok (acc, evs)
  | s :: rest =>
    match parseNodeSpecStr evs s with
    | .ok (ns, evs') => foldNodeSpecs (acc ++ [ns]) evs' rest
    | .error e => .error e

/-- Lines 122–172: handle one comma-separated sub-clause `val` of a `-l`
value.  `attr_name, attr_value = val.split('=')` (lines 123 and 131) raises
`ValueError` unless the split has exactly two parts; the `nodes=` branch uses
`val.split('=', 1)` (line 141), which cannot fail after the `startswith`
check.  The final `else` registers `unknown_resource_spec`. -/
def processVal (m : ResourceSpec) (evs : List Event) (val : Str) :
    Except PyErr (ResourceSpec × List Event) :=
  if pyStartswith (str "walltime=") val || pyStartswith (str "cput=") val then
    match pySplit '=' val with
    | [attr_name, attr_value] =>
      match walltime2seconds attr_value with
      | some seconds => .ok (rsSet m attr_name (.num seconds), evs)
      | none =>
        .ok (m, evs ++ [⟨str "invalid_" ++ attr_name ++ str "_format",
                         [(str "time", attr_value)]⟩])
    | _ => .error .valueError
  else if pyStartswith (str "mem=") val || pyStartswith (str "pmem=") val then
    match pySplit '=' val with
    | [attr_name, attr_value] =>
      match memMatch attr_value with
      | some (amount, order) =>
        .ok (rsSet m attr_name (.num (size2bytes amount order)), evs)
      | none =>
        .ok (m, evs ++ [⟨str "invalid_" ++ attr_name ++ str "_format",
                         [(str "size", attr_value)]⟩])
    | _ => .error .valueError
  else if pyStartswith (str "nodes=") val then
    match pySplit1 '=' val with
    | (_, some attr_value) =>
      match foldNodeSpecs [] evs (pySplit '+' attr_value) with
      | .ok (node_specs, evs') =>
        .ok (rsSet m (str "nodes") (.nspecs node_specs), evs')
      | .error e => .error e
    | (_, none) => .error .valueError
  else
    .ok (m, evs ++ [⟨str "unknown_resource_spec", [(str "spec", val)]⟩])

/-- The inner loop of lines 119–121: each sub-clause is stripped and handled
in order. -/
def processSubclauses (m : ResourceSpec) (evs : List Event) :
    List Str → Except PyErr (ResourceSpec × List Event)
  | [] => .ok (m, evs)
  | v :: vs =>
    match processVal m evs (pyStrip v) with
    | .ok (m', evs') => processSubclauses m' evs' vs
    | .error e => .error e

/-- The outer loop of line 119: each `-l` value is stripped, split on `,` and
handled sub-clause by sub-clause. -/
def checkLAux (m : ResourceSpec) (evs : List Event) :
    List Str → Except PyErr (ResourceSpec × List Event)
  | [] => .ok (m, evs)
  | vs :: rest =>
    match processSubclauses m evs (pySplit ',' (pyStrip vs)) with
    | .ok (m', evs') => checkLAux m' evs' rest
    | .error e => .error e

/-- `PbsOptionParser.check_l` (lines 115–173): starts from an empty
`resource_spec`, threads the parser's event list, and returns the spec that
line 173 hands to `job.add_resource_specs` together with the updated events. -/
def check_l (evs : List Event) (vals : List Str) :
    Except PyErr (ResourceSpec × List Event) :=
  checkLAux [] evs vals

/-! ## The option dispatcher (`parse_args` / `handle_option`)

The remaining checks mutate a job record.  The job class itself is not under
`src/`; its fields are those the checks assign. -/

/-- Modelled from the spec: the job record the parser mutates is not under
`src/`.  Its fields are exactly the attributes assigned by `check_A` …
`check_q`, and per §2/§3 `add_resource_specs` stores the parsed ResourceSpec
on the job-like record (modelled as appending to a list of received specs). -/
structure Job where
  project : Option Str := none
  queue : Option Str := none
  join : Option Str := none
  keep : Option Str := none
  mail_events : Option Str := none
  mail_addresses : Option (List Str) := none
  name : Option Str := none
  resource_specs : List ResourceSpec := []
deriving DecidableEq, Repr

/-- The parser's state: the `_events` list and the job record it mutates. -/
structure PState where
  events : List Event
  job : Job
deriving DecidableEq, Repr

/-- A `\w` word character (ASCII model of Python's `re` word class). -/
def isWordChar (c : Char) : Bool :=
  c.isAlpha || c.isDigit || c == '_'

/-- `re.match(r'[A-Za-z]\w*$', v)` from lines 68/75.  (`$` in Python also
matches just before one trailing newline, but every value reaching these
checks has been stripped of surrounding whitespace, so plain end-of-string is
equivalent.) -/
def matchNameRe (v : Str) : Bool :=
  match v with
  | c :: cs => c.isAlpha && cs.all isWordChar
  | [] => false

/-- `re.match(r'[A-Za-z]\w{,14}$', v)` from line 110: a letter followed by at
most 14 word characters. -/
def matchJobNameRe (v : Str) : Bool :=
  match v with
  | c :: cs => c.isAlpha && cs.all isWordChar && decide (cs.length ≤ 14)
  | [] => false

/-- `check_A` (lines 66–71). -/
def check_A (st : PState) (v : Str) : PState :=
  if matchNameRe v then { st with job := { st.job with project := some v } }
  else { st with events :=
    st.events ++ [⟨str "invalid_project_name", [(str "val", v)]⟩] }

/-- `check_q` (lines 73–78). -/
def check_q (st : PState) (v : Str) : PState :=
  if matchNameRe v then { st with job := { st.job with queue := some v } }
  else { st with events :=
    st.events ++ [⟨str "invalid_queue_name", [(str "val", v)]⟩] }

/-- `check_j` (lines 80–85). -/
def check_j (st : PState) (v : Str) : PState :=
  if v = str "oe" ∨ v = str "eo" ∨ v = str "n" then
    { st with job := { st.job with join := some v } }
  else { st with events :=
    st.events ++ [⟨str "invalid_join", [(str "val", v)]⟩] }

/-- `check_k` (lines 87–92); note the source reuses the `invalid_join` event
kind here. -/
def check_k (st : PState) (v : Str) : PState :=
  if (!v.isEmpty && v.all (fun c => c == 'e' || c == 'o')) || v = str "n" then
    { st with job := { st.job with keep := some v } }
  else { st with events :=
    st.events ++ [⟨str "invalid_join", [(str "val", v)]⟩] }

/-- `check_m` (lines 94–99): `^[bea]{1,3}$` or `^n$`. -/
def check_m (st : PState) (v : Str) : PState :=
  if (decide (1 ≤ v.length) && decide (v.length ≤ 3) &&
      v.all (fun c => c == 'b' || c == 'e' || c == 'a')) || v = str "n" then
    { st with job := { st.job with mail_events := some v } }
  else { st with events :=
    st.events ++ [⟨str "invalid_mail_event", [(str "val", v)]⟩] }

/-- `check_M` (lines 101–106): splits on `,`, stores the address list, and
registers one event per address rejected by the external `validate_email`
package (modelled as the parameter `ve`); the loop order is preserved. -/
def check_M (ve : Str → Bool) (st : PState) (v : Str) : PState :=
  let addresses := pySplit ',' v
  { events := st.events ++
      (addresses.filter (fun a => !ve a)).map
        (fun a => ⟨str "invalid_mail_address", [(str "address", a)]⟩),
    job := { st.job with mail_addresses := some addresses } }

/-- `check_N` (lines 108–113). -/
def check_N (st : PState) (v : Str) : PState :=
  if matchJobNameRe v then { st with job := { st.job with name := some v } }
  else { st with events :=
    st.events ++ [⟨str "invalid_job_name", [(str "val", v)]⟩] }

/-- The options namespace produced by `argparse.parse_known_args` (lines
17–25): one optional string per flag, a list for the appending `-l`. -/
structure Options where
  A : Option Str := none
  j : Option Str := none
  k : Option Str := none
  l : Option (List Str) := none
  m : Option Str := none
  M : Option Str := none
  N : Option Str := none
  q : Option Str := none

/-- Line 44's truthiness gate `if value:` plus the `.strip()` applied at the
dispatch site (lines 47–64) for string-valued options. -/
def handleStrOpt (f : PState → Str → PState) (st : PState) :
    Option Str → PState
  | some v => if v.isEmpty then st else f st (pyStrip v)
  | none => st

/-- The `-l` case of `handle_option` (line 56) followed by line 173's
`job.add_resource_specs`: `check_l` runs on the parser's events and the
resulting spec is stored on the job. -/
def handleLOpt (st : PState) : Option (List Str) → Except PyErr PState
  | some vs =>
    if vs.isEmpty then .ok st
    else
      match check_l st.events vs with
      | .ok (m, evs') =>
        .ok ⟨evs', { st.job with resource_specs := st.job.resource_specs ++ [m] }⟩
      | .error e => .error e
  | none => .ok st

/-- `PbsOptionParser.parse_args` (lines 38–45): line 40 replaces `_events`
with a fresh empty list before any option is handled; then each truthy option
is dispatched in the dict's insertion order `A, j, k, l, m, M, N, q`.  The
argparse tokenization (`convert_arg_line_to_args` / `parse_known_args`) is
external and does not touch `_events`; its output is the `opts` argument. -/
def parse_args (ve : Str → Bool) (st : PState) (opts : Options) :
    Except PyErr PState :=
  let st0 : PState := { st with events := [] }
  let st1 := handleStrOpt check_A st0 opts.A
  let st2 := handleStrOpt check_j st1 opts.j
  let st3 := handleStrOpt check_k st2 opts.k
  match handleLOpt st3 opts.l with
  | .error e => .error e
  | .ok st4 =>
    let st5 := handleStrOpt check_m st4 opts.m
    let st6 := handleStrOpt (check_M ve) st5 opts.M
    let st7 := handleStrOpt check_N st6 opts.N
    .ok (handleStrOpt check_q st7 opts.q)

/-! ## Helper lemmas -/

theorem pySplitAux_cons (c x : Char) (xs : Str) :
    pySplitAux c (x :: xs) =
      (if x = c then ([], (pySplitAux c xs).1 :: (pySplitAux c xs).2)
       else (x :: (pySplitAux c xs).1, (pySplitAux c xs).2)) := rfl

theorem pySplitAux_of_not_mem (c : Char) (s : Str) (h : c ∉ s) :
    pySplitAux c s = (s, []) := by
  induction s with
  | nil => rfl
  | cons x xs ih =>
    have hx : ¬ x = c := fun he => h (he ▸ List.mem_cons_self x xs)
    rw [pySplitAux_cons, ih (fun hc => h (List.mem_cons_of_mem _ hc))]
    simp [hx]

theorem pySplitAux_append_of_not_mem (c : Char) (a b : Str) (h : c ∉ a) :
    pySplitAux c (a ++ b) =
      (a ++ (pySplitAux c b).1, (pySplitAux c b).2) := by
  induction a with
  | nil => simp
  | cons x xs ih =>
    have hx : ¬ x = c := fun he => h (he ▸ List.mem_cons_self x xs)
    rw [List.cons_append, pySplitAux_cons,
      ih (fun hc => h (List.mem_cons_of_mem _ hc))]
    simp [hx]

theorem pySplit_of_not_mem (c : Char) (s : Str) (h : c ∉ s) :
    pySplit c s = [s] := by
  unfold pySplit
  rw [pySplitAux_of_not_mem c s h]

theorem pySplit_single_sep (c : Char) (a b : Str) (ha : c ∉ a) (hb : c ∉ b) :
    pySplit c (a ++ c :: b) = [a, b] := by
  unfold pySplit
  rw [pySplitAux_append_of_not_mem c a (c :: b) ha, pySplitAux_cons,
    pySplitAux_of_not_mem c b hb]
  simp

theorem dropWhile_not_ws (l : Str) (h : ∀ ch ∈ l, ch.isWhitespace = false) :
    l.dropWhile Char.isWhitespace = l := by
  cases l with
  | nil => rfl
  | cons x xs => simp [List.dropWhile_cons, h x (List.mem_cons_self x xs)]

theorem pyStrip_no_ws (s : Str) (h : ∀ ch ∈ s, ch.isWhitespace = false) :
    pyStrip s = s := by
  unfold pyStrip
  rw [dropWhile_not_ws s h,
    dropWhile_not_ws s.reverse (fun ch hch => h ch (List.mem_reverse.mp hch)),
    List.reverse_reverse]

/-- Behaviour of `processVal` on a `mem=`/`pmem=` sub-clause whose value
contains no further `=` (values with one crash; see `claim1` / C1): the code's
unanchored pattern decides between setting the attribute and registering an
`invalid_<name>_format` event. -/
theorem processVal_memlike (name : Str)
    (hn : name = str "mem" ∨ name = str "pmem")
    (m : ResourceSpec) (evs : List Event) (v : Str) (h : '=' ∉ v) :
    processVal m evs (name ++ '=' :: v) =
      (match memMatch v with
       | some (amount, order) =>
         .ok (rsSet m name (.num (size2bytes amount order)), evs)
       | none =>
         .ok (m, evs ++ [⟨str "invalid_" ++ name ++ str "_format",
                          [(str "size", v)]⟩])) := by
  rcases hn with h' | h' <;> subst h'
  · have hsplit : pySplit '=' (str "mem" ++ '=' :: v) = [str "mem", v] :=
      pySplit_single_sep '=' (str "mem") v (by decide) h
    have c1 : (pyStartswith (str "walltime=") (str "mem" ++ '=' :: v) ||
        pyStartswith (str "cput=") (str "mem" ++ '=' :: v)) = false := rfl
    have c2 : (pyStartswith (str "mem=") (str "mem" ++ '=' :: v) ||
        pyStartswith (str "pmem=") (str "mem" ++ '=' :: v)) = true := rfl
    unfold processVal
    rw [c1, c2]
    simp only [Bool.false_eq_true, if_false, if_true, hsplit]
  · have hsplit : pySplit '=' (str "pmem" ++ '=' :: v) = [str "pmem", v] :=
      pySplit_single_sep '=' (str "pmem") v (by decide) h
    have c1 : (pyStartswith (str "walltime=") (str "pmem" ++ '=' :: v) ||
        pyStartswith (str "cput=") (str "pmem" ++ '=' :: v)) = false := rfl
    have c2 : (pyStartswith (str "mem=") (str "pmem" ++ '=' :: v) ||
        pyStartswith (str "pmem=") (str "pmem" ++ '=' :: v)) = true := rfl
    unfold processVal
    rw [c1, c2]
    simp only [Bool.false_eq_true, if_false, if_true, hsplit]

/-- A token handled by the loop of lines 158–168 never changes the `nodes`
count or the `host` field chosen from the leading token. -/
theorem processTok_preserves (ns : NodeSpec) (evs : List Event) (t : Str)
    (ns' : NodeSpec) (evs' : List Event)
    (h : processTok ns evs t = .ok (ns', evs')) :
    ns'.nodes = ns.nodes ∧ ns'.host = ns.host := by
  unfold processTok at h
  split at h
  · split at h
    · split at h
      · split at h
        · simp only [Except.ok.injEq, Prod.mk.injEq] at h
          obtain ⟨h1, h2⟩ := h
          subst h1
          exact ⟨rfl, rfl⟩
        · split at h <;>
          · simp only [Except.ok.injEq, Prod.mk.injEq] at h
            obtain ⟨h1, h2⟩ := h
            subst h1
            exact ⟨rfl, rfl⟩
      · simp only [Except.ok.injEq, Prod.mk.injEq] at h
        obtain ⟨h1, h2⟩ := h
        subst h1
        exact ⟨rfl, rfl⟩
    · exact absurd h (by simp)
  · simp only [Except.ok.injEq, Prod.mk.injEq] at h
    obtain ⟨h1, h2⟩ := h
    subst h1
    exact ⟨rfl, rfl⟩

/-- The whole `spec_strs[1:]` loop preserves `nodes` and `host`. -/
theorem foldTokens_preserves (ts : List Str) (ns : NodeSpec) (evs : List Event)
    (ns' : NodeSpec) (evs' : List Event)
    (h : foldTokens ns evs ts = .ok (ns', evs')) :
    ns'.nodes = ns.nodes ∧ ns'.host = ns.host := by
  induction ts generalizing ns evs with
  | nil =>
    simp only [foldTokens, Except.ok.injEq, Prod.mk.injEq] at h
    obtain ⟨h1, h2⟩ := h
    subst h1
    exact ⟨rfl, rfl⟩
  | cons t ts ih =>
    simp only [foldTokens] at h
    split at h
    · next ns₁ evs₁ heq =>
      obtain ⟨hn, hh⟩ := ih _ _ h
      obtain ⟨hn', hh'⟩ := processTok_preserves ns evs t ns₁ evs₁ heq
      exact ⟨hn.trans hn', hh.trans hh'⟩
    · exact absurd h (by simp)

theorem rsGet_map_overwrite (m : ResourceSpec) (k : Str) (v : RVal)
    (h : m.any (fun p => p.1 == k) = true) :
    rsGet (m.map (fun p => if p.1 == k then (k, v) else p)) k = some v := by
  induction m with
  | nil => simp at h
  | cons q ps ih =>
    simp only [List.map_cons]
    by_cases hq : (q.1 == k) = true
    · rw [if_pos hq]
      simp [rsGet]
    · rw [if_neg hq]
      simp only [List.any_cons, Bool.or_eq_true] at h
      rcases h with hh | hh
      · exact absurd hh hq
      · simp only [rsGet, hq, Bool.false_eq_true, if_false]
        exact ih hh

theorem rsGet_append_new (m : ResourceSpec) (k : Str) (v : RVal)
    (h : (m.any fun p => p.1 == k) = false) :
    rsGet (m ++ [(k, v)]) k = some v := by
  induction m with
  | nil => simp [rsGet]
  | cons q ps ih =>
    simp only [List.any_cons, Bool.or_eq_false_iff] at h
    simp only [List.cons_append, rsGet, h.1, Bool.false_eq_true, if_false]
    exact ih h.2

/-- Python-dict update: looking up the just-assigned key returns the new
value. -/
theorem rsGet_rsSet (m : ResourceSpec) (k : Str) (v : RVal) :
    rsGet (rsSet m k v) k = some v := by
  by_cases hany : (m.any fun p => p.1 == k) = true
  · unfold rsSet
    rw [if_pos hany]
    exact rsGet_map_overwrite m k v hany
  · have hany' : (m.any fun p => p.1 == k) = false :=
      Bool.eq_false_iff.mpr hany
    unfold rsSet
    rw [if_neg hany]
    exact rsGet_append_new m k v hany'

/-- Dict update keeps the key list duplicate-free. -/
theorem rsSet_keys_nodup (m : ResourceSpec) (k : Str) (v : RVal)
    (h : (m.map Prod.fst).Nodup) :
    ((rsSet m k v).map Prod.fst).Nodup := by
  unfold rsSet
  split
  · next hany =>
    have : (m.map (fun p => if p.1 == k then (k, v) else p)).map Prod.fst =
        m.map Prod.fst := by
      rw [List.map_map]
      refine List.map_congr_left ?_
      intro p _
      by_cases hp : p.1 = k
      · simp [hp]
      · simp [hp]
    rw [this]
    exact h
  · next hany =>
    rw [List.map_append]
    simp only [List.map_cons, List.map_nil]
    rw [List.nodup_append]
    refine ⟨h, List.nodup_singleton k, ?_⟩
    intro a ha hb
    simp only [List.mem_singleton] at hb
    subst hb
    simp only [List.mem_map] at ha
    obtain ⟨p, hp, hpa⟩ := ha
    have : ¬ (p.1 == a) := by
      intro hc
      exact hany (List.any_eq_true.mpr ⟨p, hp, hc⟩)
    exact this (by simp [hpa])

/-- Every branch of `processVal` leaves the dict keys duplicate-free: the
result is either the incoming dict or a single `rsSet` update of it. -/
theorem processVal_nodup (m : ResourceSpec) (evs : List Event) (val : Str)
    (m' : ResourceSpec) (evs' : List Event)
    (h : processVal m evs val = .ok (m', evs'))
    (hm : (m.map Prod.fst).Nodup) :
    (m'.map Prod.fst).Nodup := by
  unfold processVal at h
  repeat' split at h
  all_goals
    first
      | exact Except.noConfusion h
      | (simp only [Except.ok.injEq, Prod.mk.injEq] at h
         obtain ⟨h1, h2⟩ := h
         subst h1
         first
           | exact hm
           | exact rsSet_keys_nodup _ _ _ hm)

theorem processSubclauses_nodup (l : List Str) (m : ResourceSpec)
    (evs : List Event) (m' : ResourceSpec) (evs' : List Event)
    (h : processSubclauses m evs l = .ok (m', evs'))
    (hm : (m.map Prod.fst).Nodup) :
    (m'.map Prod.fst).Nodup := by
  induction l generalizing m evs with
  | nil =>
    simp only [processSubclauses, Except.ok.injEq, Prod.mk.injEq] at h
    exact h.1 ▸ hm
  | cons v vs ih =>
    simp only [processSubclauses] at h
    split at h
    · next m1 evs1 heq =>
      exact ih m1 evs1 h (processVal_nodup m evs (pyStrip v) m1 evs1 heq hm)
    · exact absurd h (by simp)

theorem checkLAux_nodup (vals : List Str) (m : ResourceSpec)
    (evs : List Event) (m' : ResourceSpec) (evs' : List Event)
    (h : checkLAux m evs vals = .ok (m', evs'))
    (hm : (m.map Prod.fst).Nodup) :
    (m'.map Prod.fst).Nodup := by
  induction vals generalizing m evs with
  | nil =>
    simp only [checkLAux, Except.ok.injEq, Prod.mk.injEq] at h
    exact h.1 ▸ hm
  | cons v vs ih =>
    simp only [checkLAux] at h
    split at h
    · next m1 evs1 heq =>
      exact ih m1 evs1 h
        (processSubclauses_nodup _ m evs m1 evs1 heq hm)
    · exact absurd h (by simp)

/-- Processing a concatenation of `-l` values is processing the first part
and continuing from its state. -/
theorem checkLAux_append (vals vals' : List Str) (m : ResourceSpec)
    (evs : List Event) :
    checkLAux m evs (vals ++ vals') =
      (match checkLAux m evs vals with
       | .ok (m', e') => checkLAux m' e' vals'
       | .error e => .error e) := by
  induction vals generalizing m evs with
  | nil => simp [checkLAux]
  | cons v vs ih =>
    simp only [List.cons_append, checkLAux]
    cases hps : processSubclauses m evs (pySplit ',' (pyStrip v)) with
    | error e => simp
    | ok p => exact ih p.1 p.2

/-! ## The claims -/

/-- C1: the claim states that no malformed sub-clause causes an exception or
abort in `check_l` and that parsing always returns successfully, in particular
for sub-clauses with an extra `=` such as `mem=1=2` or `walltime=1=2`.  The
code refutes this: `attr_name, attr_value = val.split('=')` (lines 123/131)
raises an uncaught `ValueError` when the split yields three parts, so the
parse call aborts instead of registering an event and continuing. -/
theorem claim1_malformed_subclause_raises :
    check_l [] [str "mem=1=2"] = .error .valueError ∧
    check_l [] [str "walltime=1=2"] = .error .valueError :=
  ⟨rfl, rfl⟩

/-- C2 counterexample: `4gbx` does not match the spec's anchored pattern
`^(\d+)([kmgt])[bw]$`, yet the code (whose `re.match` is not end-anchored)
sets `mem` to `size2bytes 4 'g' = 4294967296` and emits no event — the claim
predicted one `invalid_mem_format` event and no attribute. -/
theorem claim2_counterexample :
    memMatchSpec (str "4gbx") = none ∧
    check_l [] [str "mem=4gbx"] =
      .ok ([(str "mem", RVal.num 4294967296)], []) :=
  ⟨rfl, rfl⟩

/-- C2 amended: for every `mem=`/`pmem=` sub-clause whose value contains no
further `=` (such values crash, see C1), the attribute is set via the size
conversion iff the value matches the code's pattern `(\d+)([kmgt])[bw]`
anchored at the start only — trailing characters after the `b`/`w` are
accepted and ignored; otherwise exactly one `invalid_<name>_format` event
with detail key `size` holding the raw value is emitted and the dict is
unchanged. -/
theorem claim2_mem_pattern_unanchored (m : ResourceSpec) (evs : List Event)
    (v : Str) (h : '=' ∉ v) :
    processVal m evs (str "mem=" ++ v) =
      (match memMatch v with
       | some (a, o) => .ok (rsSet m (str "mem") (.num (size2bytes a o)), evs)
       | none => .ok (m, evs ++ [⟨str "invalid_mem_format",
                                  [(str "size", v)]⟩])) ∧
    processVal m evs (str "pmem=" ++ v) =
      (match memMatch v with
       | some (a, o) => .ok (rsSet m (str "pmem") (.num (size2bytes a o)), evs)
       | none => .ok (m, evs ++ [⟨str "invalid_pmem_format",
                                  [(str "size", v)]⟩])) :=
  ⟨processVal_memlike (str "mem") (Or.inl rfl) m evs v h,
   processVal_memlike (str "pmem") (Or.inr rfl) m evs v h⟩

/-- Witness for C2 amended at `v = "4gbx"`. -/
theorem claim2_mem_pattern_unanchored_w :
    ('=' ∉ str "4gbx") ∧
    processVal [] [] (str "mem=" ++ str "4gbx") =
      .ok ([(str "mem", RVal.num 4294967296)], []) :=
  ⟨by decide,
   ((claim2_mem_pattern_unanchored [] [] (str "4gbx") (by decide)).1).trans
     (by rfl)⟩

/-- C3 counterexample: the clause `nodes=0` has the all-digit leading token
`0`, and the produced NodeSpec has `count = 0`, violating the claimed
invariant `count >= 1`. -/
theorem claim3_counterexample :
    check_l [] [str "nodes=0"] =
      .ok ([(str "nodes",
             RVal.nspecs [{ nodes := 0, host := none, ppn := none,
                            gpus := none, features := [] }])], []) ∧
    ¬ 1 ≤ (NodeSpec.mk 0 none none none []).nodes :=
  ⟨rfl, by decide⟩

/-- C3 amended: every NodeSpec produced from a `+`-delimited node clause has
`count >= 1` unless the clause's leading `:`-token is an all-digit string
denoting zero, in which case `count` is that zero (the code stores
`int(spec_strs[0])` without a lower bound). -/
theorem claim3_count_positive_unless_zero (evs : List Event) (s : Str)
    (ns : NodeSpec) (evs' : List Event)
    (h : parseNodeSpecStr evs s = .ok (ns, evs'))
    (hz : ¬ (pyIsdigit ((pySplit ':' s).headD []) = true ∧
             pyInt ((pySplit ':' s).headD []) = 0)) :
    1 ≤ ns.nodes := by
  simp only [parseNodeSpecStr] at h
  by_cases hd : pyIsdigit ((pySplit ':' s).headD []) = true
  · rw [if_pos hd] at h
    obtain ⟨hn, _⟩ := foldTokens_preserves _ _ _ _ _ h
    rw [hn]
    have hne : pyInt ((pySplit ':' s).headD []) ≠ 0 := fun hc => hz ⟨hd, hc⟩
    exact Nat.one_le_iff_ne_zero.mpr hne
  · rw [if_neg hd] at h
    obtain ⟨hn, _⟩ := foldTokens_preserves _ _ _ _ _ h
    rw [hn]

/-- Witness for C3 amended at the clause `"2"`. -/
theorem claim3_count_positive_unless_zero_w :
    parseNodeSpecStr [] (str "2") =
      .ok ({ nodes := 2, host := none, ppn := none, gpus := none,
             features := [] }, []) ∧
    1 ≤ (NodeSpec.mk 2 none none none []).nodes :=
  ⟨rfl, claim3_count_positive_unless_zero [] (str "2") _ [] rfl (by decide)⟩

/-- C4 counterexample: the single malformed clause `nodes=2:ppn=a:gpus=b`
produces two DiagnosticEvents (`ppn_no_number` and `gpus_no_number`), not
exactly one as claimed. -/
theorem claim4_counterexample :
    check_l [] [str "nodes=2:ppn=a:gpus=b"] =
      .ok ([(str "nodes", RVal.nspecs
              [{ nodes := 2, host := none, ppn := none, gpus := none,
                 features := [] }])],
           [⟨str "ppn_no_number", [(str "number", str "a")]⟩,
            ⟨str "gpus_no_number", [(str "number", str "b")]⟩]) ∧
    ([⟨str "ppn_no_number", [(str "number", str "a")]⟩,
      ⟨str "gpus_no_number", [(str "number", str "b")]⟩] :
        List Event).length ≠ 1 :=
  ⟨rfl, by decide⟩

/-- C4 amended: the parser emits one event per detected problem — a clause
with several malformed `:`-sub-values yields one event per malformed
sub-value (two for `nodes=2:ppn=a:gpus=b`), appended in order to whatever
events were already registered, and parsing of subsequent clauses is not
blocked: the following `mem=1kb` clause is still parsed and sets `mem`. -/
theorem claim4_one_event_per_problem (evs : List Event) :
    check_l evs [str "nodes=2:ppn=a:gpus=b,mem=1kb"] =
      .ok ([(str "nodes", RVal.nspecs
              [{ nodes := 2, host := none, ppn := none, gpus := none,
                 features := [] }]),
            (str "mem", RVal.num 1024)],
           evs ++ [⟨str "ppn_no_number", [(str "number", str "a")]⟩,
                   ⟨str "gpus_no_number", [(str "number", str "b")]⟩]) := by
  simp [check_l, checkLAux, processSubclauses, processVal, pyStrip, pySplit,
    pySplitAux, pyStartswith, str, foldNodeSpecs, parseNodeSpecStr, foldTokens,
    processTok, pyIsdigit, pyInt, rsSet, size2bytes, pySplit1, memMatch,
    walltime2seconds]

/-- C5: for every `+`-delimited node clause, if the first `:`-token is all
decimal digits then the node count is that token parsed as an integer and no
host is recorded; otherwise the count is 1 and the token is recorded as the
host.  (The remaining tokens never change `nodes` or `host`.) -/
theorem claim5_leading_token_heuristic (evs : List Event) (s : Str)
    (ns : NodeSpec) (evs' : List Event)
    (h : parseNodeSpecStr evs s = .ok (ns, evs')) :
    (pyIsdigit ((pySplit ':' s).headD []) = true →
       ns.nodes = pyInt ((pySplit ':' s).headD []) ∧ ns.host = none) ∧
    (pyIsdigit ((pySplit ':' s).headD []) = false →
       ns.nodes = 1 ∧ ns.host = some ((pySplit ':' s).headD [])) := by
  simp only [parseNodeSpecStr] at h
  constructor
  · intro hd
    rw [if_pos hd] at h
    exact foldTokens_preserves _ _ _ _ _ h
  · intro hd
    rw [if_neg (by rw [hd]; simp)] at h
    exact foldTokens_preserves _ _ _ _ _ h

/-- Witness for C5 at the clause `"node07:bigmem"`. -/
theorem claim5_leading_token_heuristic_w :
    parseNodeSpecStr [] (str "node07:bigmem") =
      .ok ({ nodes := 1, host := some (str "node07"), ppn := none,
             gpus := none, features := [str "bigmem"] }, []) ∧
    (NodeSpec.mk 1 (some (str "node07")) none none [str "bigmem"]).nodes = 1 ∧
    (NodeSpec.mk 1 (some (str "node07")) none none
        [str "bigmem"]).host = some (str "node07") :=
  ⟨rfl,
   (claim5_leading_token_heuristic [] (str "node07:bigmem") _ [] rfl).2
     (by decide)⟩

/-- C6: the claim states that a `ppn=<value>`/`gpus=<value>` token with a
non-numeric value yields exactly one `<key>_no_number` event with the
offending value.  The code refutes this for values containing `=`:
`key, value = spec_str.split('=')` (line 161) raises an uncaught `ValueError`
on `ppn=1=2` (three parts), instead of registering the event. -/
theorem claim6_ppn_extra_equals_raises :
    check_l [] [str "nodes=1:ppn=1=2"] = .error .valueError :=
  rfl

/-- C7: a successful parse never holds two values for one attribute name
(the dict's key list is duplicate-free), and the value of an attribute is the
one from the last clause that set it: appending one more valid `mem=` clause
to any successfully parsed clause list overwrites `mem` with the new value,
whatever was parsed before. -/
theorem claim7_last_occurrence_wins :
    (∀ (evs : List Event) (vals : List Str) (m : ResourceSpec)
        (evs' : List Event),
        check_l evs vals = .ok (m, evs') → (m.map Prod.fst).Nodup) ∧
    (∀ (evs : List Event) (vals : List Str) (m : ResourceSpec)
        (evs' : List Event) (v : Str) (a : ℕ) (o : Char),
        check_l evs vals = .ok (m, evs') →
        memMatch v = some (a, o) →
        '=' ∉ v → ',' ∉ v → (∀ ch ∈ v, ch.isWhitespace = false) →
        check_l evs (vals ++ [str "mem=" ++ v]) =
          .ok (rsSet m (str "mem") (.num (size2bytes a o)), evs') ∧
        rsGet (rsSet m (str "mem") (.num (size2bytes a o))) (str "mem") =
          some (.num (size2bytes a o))) := by
  constructor
  · intro evs vals m evs' h
    exact checkLAux_nodup vals [] evs m evs' h (by simp)
  · intro evs vals m evs' v a o h hm he hc hw
    refine ⟨?_, rsGet_rsSet _ _ _⟩
    unfold check_l at h ⊢
    rw [checkLAux_append, h]
    have hws : ∀ ch ∈ str "mem=" ++ v, ch.isWhitespace = false := by
      intro ch hch
      rcases List.mem_append.mp hch with h1 | h1
      · have he4 : str "mem=" = ['m', 'e', 'm', '='] := rfl
        rw [he4] at h1
        simp only [List.mem_cons, List.not_mem_nil, or_false] at h1
        rcases h1 with rfl | rfl | rfl | rfl <;> decide
      · exact hw ch h1
    have hstrip : pyStrip (str "mem=" ++ v) = str "mem=" ++ v :=
      pyStrip_no_ws _ hws
    have hsplitc : pySplit ',' (str "mem=" ++ v) = [str "mem=" ++ v] := by
      apply pySplit_of_not_mem
      intro hc2
      rcases List.mem_append.mp hc2 with h1 | h1
      · exact absurd h1 (by decide)
      · exact hc h1
    have hpv : processVal m evs' (str "mem=" ++ v) =
        .ok (rsSet m (str "mem") (.num (size2bytes a o)), evs') := by
      have hstep := processVal_memlike (str "mem") (Or.inl rfl) m evs' v he
      rw [hm] at hstep
      exact hstep
    show checkLAux m evs' [str "mem=" ++ v] = _
    have e1 : checkLAux m evs' [str "mem=" ++ v] =
        (match processSubclauses m evs'
            (pySplit ',' (pyStrip (str "mem=" ++ v))) with
         | Except.ok (m', e') => checkLAux m' e' []
         | Except.error e => Except.error e) := rfl
    rw [e1, hstrip, hsplitc]
    have e2 : processSubclauses m evs' [str "mem=" ++ v] =
        (match processVal m evs' (pyStrip (str "mem=" ++ v)) with
         | Except.ok (m', e') => processSubclauses m' e' []
         | Except.error e => Except.error e) := rfl
    rw [e2, hstrip, hpv]
    rfl

/-- Witness for C7: two `mem=` clauses with different valid values; the
resulting spec holds one `mem` entry, with the value of the second clause
(`2kb`, 2048 bytes). -/
theorem claim7_last_occurrence_wins_w :
    check_l [] [str "mem=1kb"] = .ok ([(str "mem", RVal.num 1024)], []) ∧
    (([(str "mem", RVal.num 1024)] : ResourceSpec).map Prod.fst).Nodup ∧
    check_l [] [str "mem=1kb", str "mem=2kb"] =
      .ok (rsSet [(str "mem", RVal.num 1024)] (str "mem") (.num 2048), []) ∧
    rsGet (rsSet [(str "mem", RVal.num 1024)] (str "mem") (.num 2048))
        (str "mem") = some (.num 2048) := by
  refine ⟨rfl, claim7_last_occurrence_wins.1 [] [str "mem=1kb"] _ [] rfl,
    ?_, ?_⟩
  · exact (claim7_last_occurrence_wins.2 [] [str "mem=1kb"]
      [(str "mem", RVal.num 1024)] [] (str "2kb") 2 'k' rfl rfl
      (by decide) (by decide) (by decide)).1
  · exact (claim7_last_occurrence_wins.2 [] [str "mem=1kb"]
      [(str "mem", RVal.num 1024)] [] (str "2kb") 2 'k' rfl rfl
      (by decide) (by decide) (by decide)).2

/-- C8: a sub-clause whose prefix is none of `walltime=`, `cput=`, `mem=`,
`pmem=`, `nodes=` sets no attribute (the dict is returned unchanged) and
registers exactly one `unknown_resource_spec` event whose `spec` detail holds
the raw sub-clause. -/
theorem claim8_unknown_resource_spec (m : ResourceSpec) (evs : List Event)
    (val : Str)
    (h1 : pyStartswith (str "walltime=") val = false)
    (h2 : pyStartswith (str "cput=") val = false)
    (h3 : pyStartswith (str "mem=") val = false)
    (h4 : pyStartswith (str "pmem=") val = false)
    (h5 : pyStartswith (str "nodes=") val = false) :
    processVal m evs val =
      .ok (m, evs ++ [⟨str "unknown_resource_spec",
                       [(str "spec", val)]⟩]) := by
  simp [processVal, h1, h2, h3, h4, h5]

/-- Witness for C8 at the spec's own example `foo=bar`: zero attributes set,
one `unknown_resource_spec` event. -/
theorem claim8_unknown_resource_spec_w :
    pyStartswith (str "walltime=") (str "foo=bar") = false ∧
    processVal [] [] (str "foo=bar") =
      .ok ([], [⟨str "unknown_resource_spec",
                 [(str "spec", str "foo=bar")]⟩]) :=
  ⟨rfl, claim8_unknown_resource_spec [] [] (str "foo=bar") rfl rfl rfl rfl rfl⟩

/-- C9: `parse_args` replaces `_events` with a fresh empty list (line 40)
before any option is handled, so the result — events included — does not
depend on the events left over from any earlier parse: two states differing
only in their prior event lists produce identical results. -/
theorem claim9_events_cleared (ve : Str → Bool) (evs evs' : List Event)
    (job : Job) (opts : Options) :
    parse_args ve ⟨evs, job⟩ opts = parse_args ve ⟨evs', job⟩ opts :=
  rfl

/-- C10: an empty sub-clause (as produced by splitting a `-l` value on `,`
around a doubled or trailing comma) matches none of the known prefixes, so it
sets no attribute and registers one `unknown_resource_spec` event whose
`spec` detail is the empty string; `walltime=3600,,mem=1gb` still sets both
surrounding attributes. -/
theorem claim10_empty_subclause :
    (∀ (m : ResourceSpec) (evs : List Event),
        processVal m evs [] =
          .ok (m, evs ++ [⟨str "unknown_resource_spec",
                           [(str "spec", [])]⟩])) ∧
    check_l [] [str "walltime=3600,,mem=1gb"] =
      .ok ([(str "walltime", RVal.num 3600),
            (str "mem", RVal.num 1073741824)],
           [⟨str "unknown_resource_spec", [(str "spec", [])]⟩]) :=
  ⟨fun _ _ => rfl, rfl⟩

end PbsParser
